import Mathlib

/-!
Shallow embedding of the core of `lib/trade_models/quant_transformer.py` and
`lib/procedures/q_exps.py` (AutoDL-Projects quantitative-transformer glue),
together with proofs about the embedded definitions.

Modelling conventions:
* Python floats are modelled by `ℚ`, except where not-a-number propagation
  matters, where values live in `RVal` (`num q` or `nan`).
* Exceptions are modelled by `Except PyError _` / `Option _`; a `NameError`
  raised by referencing an unbound variable is `PyError.nameError`.
* Tensors are nested lists; a batched tensor op that acts independently on
  every batch slice (all ops used by `TransformerModel.forward` do, since
  every reshape/linear/softmax/matmul/cat acts inside one batch element) is
  embedded as a `List.map` of the per-row operation over the batch list.
* Irrational scalar primitives of the source (`math.sqrt`, `exp` inside
  softmax, the GELU nonlinearity) are uninterpreted function parameters
  `sqrtF expF actF : ℚ → ℚ`; dropout layers are identities, which is their
  evaluation-mode semantics and their semantics at the rate-0 configuration
  used by `QuantTransformer`.
* The per-epoch train/valid/test evaluation scores and the per-epoch model
  parameters of `fit` are oracle sequences `Nat → ℚ` / `Nat → P`: the claims
  about the training loop quantify over the produced score sequence, and the
  loop's control flow reads scores only through these values.
-/

/-- Python exception kinds that the embedded code can raise. -/
inductive PyError where
  | valueError (msg : String)
  | nameError (unboundName : String)
  | attributeError (attr : String)
  | typeError (msg : String)
deriving DecidableEq

/-- The torch device held by `QuantTransformer.device`
(`torch.device("cuda:i")` or `torch.device("cpu")`). -/
inductive Device where
  | cpu
  | cuda (idx : Nat)
deriving DecidableEq

namespace QuantTransformer

/-- The `use_gpu` property (quant_transformer.py lines 98-100): its body
evaluates `self.device == torch.device("cpu")` as a bare expression statement
and falls off the end of the function, so Python returns `None` for every
device. `none` models Python `None`; a returned boolean would be `some b`. -/
def use_gpu (device : Device) : Option Bool :=
  let _cmp := decide (device = Device.cpu)
  none

/-- Python truthiness of an optional boolean: `None` is falsy. -/
def pyTruthy : Option Bool → Bool
  | none => false
  | some b => b

/-- Values appearing in prediction/label tensors: a rational number or
not-a-number. Arithmetic on `RVal` propagates `nan` like IEEE arithmetic. -/
inductive RVal where
  | num (q : ℚ)
  | nan
deriving DecidableEq

/-- `torch.isnan` on one entry. -/
def RVal.isnan : RVal → Bool
  | .nan => true
  | .num _ => false

/-- `torch.isfinite` on one entry (the model has no infinities, so an entry is
finite exactly when it is not `nan`). -/
def RVal.isfinite : RVal → Bool
  | .nan => false
  | .num _ => true

def RVal.add : RVal → RVal → RVal
  | .num a, .num b => .num (a + b)
  | _, _ => .nan

def RVal.sub : RVal → RVal → RVal
  | .num a, .num b => .num (a - b)
  | _, _ => .nan

def RVal.mul : RVal → RVal → RVal
  | .num a, .num b => .num (a * b)
  | _, _ => .nan

def RVal.neg : RVal → RVal
  | .num a => .num (-a)
  | .nan => .nan

/-- Division of a tensor sum by an element count; dividing by a zero count
yields `nan`, as `0.0 / 0` does for the mean of an empty tensor. -/
def RVal.divCount : RVal → Nat → RVal
  | _, 0 => .nan
  | .num a, n => .num (a / n)
  | .nan, _ => .nan

/-- Sum of a list of `RVal`s (`nan` absorbs). -/
def RVal.sumL (l : List RVal) : RVal := l.foldr RVal.add (.num 0)

/-- `torch.nn.functional.mse_loss` with the default mean reduction: the mean
of elementwise squared differences.  On empty inputs the mean is `0/0`,
i.e. `nan` — exactly what torch produces for the empty tensor. -/
def mse_loss (pred label : List RVal) : RVal :=
  let ds := List.zipWith (fun p l => RVal.mul (RVal.sub p l) (RVal.sub p l)) pred label
  RVal.divCount (RVal.sumL ds) ds.length

/-- Boolean-mask indexing `t[mask]` (mask and tensor of equal length). -/
def maskSelect (mask : List Bool) (l : List RVal) : List RVal :=
  (List.zip mask l).filterMap (fun p => if p.1 then some p.2 else none)

/-- `QuantTransformer.loss_fn` (lines 102-107): mask out entries whose label
is `nan`, then mean-squared error over the selected entries.  The unknown-loss
branch formats `self.loss`, an attribute that is never assigned, so it raises
`AttributeError`. -/
def loss_fn (lossName : String) (pred label : List RVal) : Except PyError RVal :=
  let mask := label.map (fun l => !l.isnan)
  if lossName = "mse" then
    .ok (mse_loss (maskSelect mask pred) (maskSelect mask label))
  else
    .error (.attributeError "loss")

/-- `QuantTransformer.metric_fn` (lines 109-114): mask by `torch.isfinite`,
then return the negated `loss_fn` of the selected entries (which masks again
inside `loss_fn`). -/
def metric_fn (metric lossName : String) (pred label : List RVal) : Except PyError RVal :=
  let mask := label.map RVal.isfinite
  if metric = "" ∨ metric = "loss" then
    (loss_fn lossName (maskSelect mask pred) (maskSelect mask label)).map RVal.neg
  else
    .error (.valueError "unknown metric")

/-- The optimizer object built by `__init__`. -/
inductive OptimizerKind where
  | adam
  | sgd
deriving DecidableEq

/-- Optimizer selection in `QuantTransformer.__init__` (lines 88-93),
branch for branch:
* `if self.opt_config["optimizer"] == "adam"` builds `optim.Adam`;
* `elif self.opt_config["optimizer"] == "adam"` (sic — the same condition
  again) would build `optim.SGD`, and is unreachable;
* the `else` branch executes
  `raise NotImplementedError("optimizer ... is not supported!".format(optimizer))`,
  but the name `optimizer` is unbound in `__init__` (the option lives in
  `self.opt_config["optimizer"]`), so evaluating the message raises
  `NameError: name 'optimizer' is not defined` before the
  `NotImplementedError` is ever constructed. -/
def selectOptimizer (optName : String) : Except PyError OptimizerKind :=
  if optName = "adam" then .ok .adam
  else if optName = "adam" then .ok .sgd
  else .error (.nameError "optimizer")

/-- Mutable state of the epoch loop in `fit` (lines 192-229): the stall
counter `stop_steps`, the best validation score so far (`none` models the
initial `-np.inf`), the best epoch index, the best-parameter snapshot
(`none` until the first improving epoch, mirroring that the Python local
`best_param` is unbound until then), and the two lists that `fit` appends to
`evals_result` (`evals_result["train"]` / `evals_result["valid"]`,
initialised to `[]` on lines 194-195). The parameter type `P` stands for a
model `state_dict`. -/
structure LoopState (P : Type) where
  stop_steps : Nat
  best_score : Option ℚ
  best_epoch : Nat
  best_param : Option P
  evalsTrain : List ℚ
  evalsValid : List ℚ
deriving DecidableEq

/-- The comparison `eval_score_dict["valid"] > best_score` of line 222, with
`best_score = -np.inf` (`none`) before any epoch. -/
def improves (s : ℚ) : Option ℚ → Bool
  | none => true
  | some b => decide (b < s)

/-- One epoch body of the `fit` loop (lines 211-229, minus the break
decision): run `_internal_test` obtaining the train/valid/test scores, append
the train and valid scores to `evals_result` (lines 219-220; the test score of
`eval_score_dict` is computed but never stored), then either reset the stall
counter, record the best epoch and take a deep snapshot of the parameters
(`copy.deepcopy(self.model.state_dict())`, line 224) if the validation score
strictly improves, or increment the stall counter otherwise. -/
def epochUpdate {P : Type} (trainS validS testS : Nat → ℚ) (params : Nat → P)
    (i : Nat) (st : LoopState P) : LoopState P :=
  let eval_score_dict := (trainS i, validS i, testS i)
  let st1 := { st with evalsTrain := st.evalsTrain ++ [eval_score_dict.1],
                       evalsValid := st.evalsValid ++ [eval_score_dict.2.1] }
  if improves eval_score_dict.2.1 st1.best_score then
    { st1 with stop_steps := 0, best_epoch := i,
               best_score := some eval_score_dict.2.1,
               best_param := some (params i) }
  else
    { st1 with stop_steps := st1.stop_steps + 1 }

/-- The `for iepoch in range(self.opt_config["epochs"])` loop of `fit`:
`i` is the current epoch index, the second argument the number of epochs still
allowed by the budget. Returns the final loop state together with the number
of epochs that actually executed; the loop breaks as soon as a non-improving
epoch pushes the stall counter to `early_stop` (lines 226-229). -/
def runEpochs {P : Type} (early_stop : Nat) (trainS validS testS : Nat → ℚ)
    (params : Nat → P) : Nat → Nat → LoopState P → LoopState P × Nat
  | _, 0, st => (st, 0)
  | i, rem + 1, st =>
    let st' := epochUpdate trainS validS testS params i st
    if improves (validS i) st.best_score then
      let r := runEpochs early_stop trainS validS testS params (i + 1) rem st'
      (r.1, r.2 + 1)
    else if early_stop ≤ st'.stop_steps then (st', 1)
    else
      let r := runEpochs early_stop trainS validS testS params (i + 1) rem st'
      (r.1, r.2 + 1)

/-- What `fit` leaves behind on success (lines 231-237): the restored model
parameters (`self.model.load_state_dict(best_param)`), the persisted snapshot
(`torch.save(best_param, save_path)` — the same object), the final
`evals_result` contents and its key set, whether the GPU-cache-clearing branch
ran, and the `fitted` flag. -/
structure FitResult (P : Type) where
  completedEpochs : Nat
  best_epoch : Nat
  best_score : Option ℚ
  modelParam : P
  savedParam : P
  evalsTrain : List ℚ
  evalsValid : List ℚ
  evalsKeys : List String
  clearedGpuCache : Bool
  fitted : Bool
deriving DecidableEq

/-- `QuantTransformer.fit` (lines 151-237), abstracted over the evaluation
score sequences and the per-epoch parameter states. The pre-loop baseline
`_internal_test()` call (line 209) only feeds the log and is not modelled.
After the loop, `self.model.load_state_dict(best_param)` reads the Python
local `best_param`; if no epoch ever improved (possible only with an empty
epoch budget here, since any rational score beats `-np.inf`), that name is
unbound and `fit` dies with a `NameError`, modelled as `none`. Otherwise the
best snapshot is restored and saved, the cache-clearing branch is governed by
the always-`None` `use_gpu` property, and `self.fitted` is set. -/
def fit {P : Type} (device : Device) (epochs early_stop : Nat)
    (trainS validS testS : Nat → ℚ) (params : Nat → P) : Option (FitResult P) :=
  let st0 : LoopState P := ⟨0, none, 0, none, [], []⟩
  let r := runEpochs early_stop trainS validS testS params 0 epochs st0
  match r.1.best_param with
  | none => none
  | some p =>
      some { completedEpochs := r.2
             best_epoch := r.1.best_epoch
             best_score := r.1.best_score
             modelParam := p
             savedParam := p
             evalsTrain := r.1.evalsTrain
             evalsValid := r.1.evalsValid
             evalsKeys := ["train", "valid"]
             clearedGpuCache := pyTruthy (use_gpu device)
             fitted := true }

/-- The error raised by `predict` when `self.fitted` is false (line 242). -/
def notFittedError : PyError := .valueError "model is not fitted yet!"

/-- The error raised by `range(sample_num)[::0]` when the batch-size
attribute is zero. -/
def sliceStepZeroError : PyError := .valueError "slice step cannot be zero"

/-- The error raised by `np.concatenate([])` when no chunk was produced
(empty input table). -/
def concatEmptyError : PyError := .valueError "need at least one array to concatenate"

/-- Python slice-with-step `l[::step]` for `step ≥ 1`: every `step`-th
element starting from the head. -/
def sliceStep {α : Type} (l : List α) (step : Nat) : List α :=
  match l with
  | [] => []
  | x :: xs => x :: sliceStep (xs.drop (step - 1)) step
termination_by l.length
decreasing_by
  simp only [List.length_cons]
  exact Nat.lt_succ_of_le (List.length_drop _ _ ▸ Nat.sub_le _ _)

/-- The condition of the device branch inside `predict`'s no-grad block
(line 261): `if self.use_gpu:`. -/
def predictGpuBranch (device : Device) : Bool := pyTruthy (use_gpu device)

/-- The `pd.Series` that `predict` returns: values labelled by the input
table's row identifiers. -/
structure PredSeries where
  index : List Nat
  values : List ℚ
deriving DecidableEq

/-- `QuantTransformer.predict` (lines 239-268). `x_test` is the prepared
feature table: rows paired with their row identifiers, in table order.
`f` is the fitted network applied to one feature row (the batched forward pass
acts on each row independently, see `TransformerModel.forward` below), and
`batch_size` is the value of the `self.batch_size` attribute the loop reads.
Faithful failure modes: a not-fitted state raises `ValueError`; a zero slice
step raises `ValueError`; an empty table produces no chunks and
`np.concatenate([])` raises `ValueError`. The two arms of the device branch
compute the same values (`.detach().cpu().numpy()` versus
`.detach().numpy()`). -/
def predict (device : Device) (fitted : Bool) (f : List ℚ → ℚ)
    (batch_size : Nat) (x_test : List (Nat × List ℚ)) : Except PyError PredSeries :=
  if fitted = false then .error notFittedError
  else
    let index := x_test.map Prod.fst
    let x_values := x_test.map Prod.snd
    let sample_num := x_values.length
    if batch_size = 0 then .error sliceStepZeroError
    else
      let begins := sliceStep (List.range sample_num) batch_size
      let preds := begins.map (fun b =>
        let e := if sample_num - b < batch_size then sample_num else b + batch_size
        let x_batch := (x_values.drop b).take (e - b)
        if predictGpuBranch device then x_batch.map f else x_batch.map f)
      match preds with
      | [] => .error concatEmptyError
      | _ :: _ => .ok ⟨index, preds.flatten⟩

/-- The controller state produced by `__init__` that the claims observe. -/
structure InitState where
  optimizer : OptimizerKind
  fitted : Bool
deriving DecidableEq

/-- `QuantTransformer.__init__` reduced to the observable controller state:
build the optimizer eagerly (propagating its exception) and set
`self.fitted = False` (line 95). -/
def init (optName : String) : Except PyError InitState :=
  match selectOptimizer optName with
  | .ok k => .ok { optimizer := k, fitted := false }
  | .error e => .error e

end QuantTransformer

/-- Dot product of two coordinate lists. -/
def dotL (a b : List ℚ) : ℚ := (List.zipWith (· * ·) a b).sum

/-- `nn.Linear` applied to one vector: `W·v + b`, one output coordinate per
weight row / bias entry. -/
def applyLinear (W : List (List ℚ)) (b : List ℚ) (v : List ℚ) : List ℚ :=
  List.zipWith (fun wr bi => dotL wr v + bi) W b

/-- A rows × cols weight matrix filled from a generator (stands for the
truncated-normal random initialisation of the source, whose values the shape
claims do not constrain). -/
def mkMatrix (rows cols : Nat) (g : Nat → Nat → ℚ) : List (List ℚ) :=
  (List.range rows).map (fun i => (List.range cols).map (g i))

/-- A length-`n` vector filled from a generator. -/
def mkVec (n : Nat) (g : Nat → ℚ) : List ℚ := (List.range n).map g

/-- Parameters of `SimpleEmbed` (quant_transformer.py lines 333-338):
`d_feat`, the projection `nn.Linear(d_feat, embed_dim)`, and the scalar
`math.sqrt(embed_dim)` (uninterpreted, since it is irrational in general). -/
structure SimpleEmbedParams where
  d_feat : Nat
  projW : List (List ℚ)
  projB : List ℚ
  sqrtEmbed : ℚ

/-- The `x.reshape(len(x), self.d_feat, -1)` step of `SimpleEmbed.forward`
(line 341) on one row: split the flattened row into `d_feat` consecutive
chunks of length `T = len(row) / d_feat` (row-major reshape `[F*T] -> [F, T]`). -/
def reshapeFT (F : Nat) (x : List ℚ) : List (List ℚ) :=
  let T := x.length / F
  (List.range F).map (fun i => (x.drop (i * T)).take T)

/-- The `x.permute(0, 2, 1)` step (line 342) on one row's `[F, T]` matrix:
transpose to `[T, F]`. -/
def permute021 (m : List (List ℚ)) : List (List ℚ) :=
  (List.range (m.headD []).length).map (fun t => m.map (fun r => r.getD t 0))

/-- `SimpleEmbed.forward` (lines 340-344) on one batch row: reshape to
`[F, T]`, permute to `[T, F]`, project each timestep vector through the
linear layer, and scale by `sqrt(embed_dim)`. -/
def SimpleEmbed.forwardRow (p : SimpleEmbedParams) (x : List ℚ) : List (List ℚ) :=
  (permute021 (reshapeFT p.d_feat x)).map
    (fun v => (applyLinear p.projW p.projB v).map (· * p.sqrtEmbed))

/-- `SimpleEmbed.forward` over a batch. -/
def SimpleEmbed.forward (p : SimpleEmbedParams) (batch : List (List ℚ)) : List (List (List ℚ)) :=
  batch.map (SimpleEmbed.forwardRow p)

/-- The spec's reading of the embedding front-end, stated independently of
the reshape/permute mechanism: for a row of flattened length `d_feat × T`,
timestep `t`'s feature vector consists of that timestep's `d_feat` features of
the flattened (feature-major) row, i.e. entries `f*T + t`; each such vector is
projected and scaled. Used to compare `SimpleEmbed.forwardRow` against the
spec sentence of §4.1. -/
def specEmbedRow (p : SimpleEmbedParams) (T : Nat) (x : List ℚ) : List (List ℚ) :=
  (List.range T).map (fun t =>
    (applyLinear p.projW p.projB
      ((List.range p.d_feat).map (fun f => x.getD (f * T + t) 0))).map (· * p.sqrtEmbed))

/-- Softmax over one row, with the exponential left uninterpreted (`ℚ` has no
`exp`); division in `ℚ` is total, and only shape is at stake here. -/
def softmaxRow (expF : ℚ → ℚ) (r : List ℚ) : List ℚ :=
  let es := r.map expF
  es.map (· / es.sum)

/-- Column `j` of a matrix. -/
def colGet (m : List (List ℚ)) (j : Nat) : List ℚ := m.map (fun r => r.getD j 0)

/-- Parameters of `Attention` (lines 274-285): head count, the score scale
`qk_scale or math.sqrt(head_dim)` (uninterpreted scalar), the fused
`nn.Linear(dim, dim*3)` qkv map and the output projection
`nn.Linear(dim, dim)`. Attention / projection dropout are identities at the
rate-0 configuration in use. -/
structure AttentionParams where
  num_heads : Nat
  scale : ℚ
  qkvW : List (List ℚ)
  qkvB : List ℚ
  projW : List (List ℚ)
  projB : List ℚ

/-- `Attention.forward` (lines 287-299) on one batch element `x : N × C`.
The source reshapes the fused qkv output `(N, 3C)` to `(N, 3, H, C/H)` and
permutes to put q, k, v at offsets `0`, `C`, `2C` with head `h` occupying the
`hd`-wide slice at `h*hd`; attention scores are `(q @ kᵀ) * scale`, softmaxed
over the key axis, multiplied into `v`, heads re-concatenated
(`transpose(1, 2).reshape(B, N, C)`), and projected. -/
def Attention.forwardRow (expF : ℚ → ℚ) (p : AttentionParams)
    (x : List (List ℚ)) : List (List ℚ) :=
  let C := (x.headD []).length
  let hd := C / p.num_heads
  let qkvOut := x.map (applyLinear p.qkvW p.qkvB)
  let slice := fun (off h : Nat) (r : List ℚ) => (r.drop (off + h * hd)).take hd
  let q := (List.range p.num_heads).map (fun h => qkvOut.map (slice 0 h))
  let k := (List.range p.num_heads).map (fun h => qkvOut.map (slice C h))
  let v := (List.range p.num_heads).map (fun h => qkvOut.map (slice (2 * C) h))
  let attn := List.zipWith
    (fun qh kh => qh.map (fun qr => kh.map (fun kr => dotL qr kr * p.scale))) q k
  let attnS := attn.map (fun m => m.map (softmaxRow expF))
  let outh := List.zipWith
    (fun ah vh => ah.map (fun ar => (List.range hd).map (fun j => dotL ar (colGet vh j)))) attnS v
  let merged := (List.range x.length).map
    (fun n => ((outh.map (fun m => m.getD n [])).flatten))
  merged.map (applyLinear p.projW p.projB)

/-- Parameters of one `nn.LayerNorm`: elementwise affine weight and bias. -/
structure LNParams where
  w : List ℚ
  b : List ℚ

/-- Mean of a coordinate list (`0` for the empty list, unused at the shapes
that occur). -/
def meanL (l : List ℚ) : ℚ := l.sum / l.length

/-- `nn.LayerNorm` on one vector: normalise by mean and (biased) variance with
`eps`, using an uninterpreted square root, then apply the affine map. -/
def layerNorm (sqrtF : ℚ → ℚ) (eps : ℚ) (p : LNParams) (v : List ℚ) : List ℚ :=
  let μ := meanL v
  let σ := sqrtF ((v.map (fun c => (c - μ) ^ 2)).sum / v.length + eps)
  v.mapIdx (fun i c => (c - μ) / σ * p.w.getD i 1 + p.b.getD i 0)

/-- Parameters of the feed-forward sublayer. -/
structure MLPParams where
  fc1W : List (List ℚ)
  fc1B : List ℚ
  fc2W : List (List ℚ)
  fc2B : List ℚ

/-- Modelled from the spec: `xlayers.MLP` (imported `layers` module, not part
of this repository snapshot) is per §4.2 "a 2-layer feed-forward sublayer
(expansion ratio mlp_ratio, nonlinearity, dropout)": linear `dim → hidden`,
nonlinearity (uninterpreted `actF`, GELU in the source), linear
`hidden → dim`; dropout is the identity at evaluation / rate 0. -/
def mlpRow (actF : ℚ → ℚ) (p : MLPParams) (v : List ℚ) : List ℚ :=
  applyLinear p.fc2W p.fc2B ((applyLinear p.fc1W p.fc1B v).map actF)

/-- Parameters of one `Block` (lines 302-325). -/
structure BlockParams where
  norm1 : LNParams
  attn : AttentionParams
  norm2 : LNParams
  mlp : MLPParams

/-- Elementwise sum of two equally-shaped matrices (residual add). -/
def addMat (a b : List (List ℚ)) : List (List ℚ) :=
  List.zipWith (List.zipWith (· + ·)) a b

/-- `Block.forward` (lines 327-330) on one batch element:
`x = x + drop_path(attn(norm1(x)))`, then `x = x + drop_path(mlp(norm2(x)))`.
`drop_path` is `nn.Identity()` since `QuantTransformer` leaves
`drop_path_rate` at its default `0.0` (line 322). `norm` and `mlp` act on each
position's `dim`-vector. -/
def Block.forwardRow (expF sqrtF actF : ℚ → ℚ) (eps : ℚ) (p : BlockParams)
    (x : List (List ℚ)) : List (List ℚ) :=
  let x1 := addMat x (Attention.forwardRow expF p.attn (x.map (layerNorm sqrtF eps p.norm1)))
  addMat x1 ((x1.map (layerNorm sqrtF eps p.norm2)).map (mlpRow actF p.mlp))

/-- Parameters of `TransformerModel` (lines 347-411): the embedding
front-end, the learnable aggregation (`cls`) token, the positional-encoding
table, the `depth` blocks, the final norm, and the regression head
`nn.Linear(embed_dim, 1)`. -/
structure TransformerParams where
  embed : SimpleEmbedParams
  clsToken : List ℚ
  pe : Nat → Nat → ℚ
  blocks : List BlockParams
  normF : LNParams
  headW : List (List ℚ)
  headB : List ℚ

/-- Modelled from the spec: `xlayers.PositionalEncoder` (imported `layers`
module, not part of this repository snapshot) is per §4.3 "a
positional-encoding module supporting sequences up to a fixed maximum length"
that adds a positional encoding; shape-preserving, dropout identity at the
rate in use. `pe t d` is the table entry for position `t`, dimension `d`. -/
def posEncode (pe : Nat → Nat → ℚ) (s : List (List ℚ)) : List (List ℚ) :=
  s.mapIdx (fun t v => v.mapIdx (fun d c => c + pe t d))

/-- `TransformerModel.forward_features` (lines 422-435) on one batch row:
embed, prepend the cls token along the sequence axis
(`torch.cat((cls_tokens, feats), dim=1)`), add positional encoding, run the
blocks in order, apply the final norm, and take the representation at index 0
(`self.norm(xfeats)[:, 0]`). -/
def TransformerModel.forward_features_row (expF sqrtF actF : ℚ → ℚ) (eps : ℚ)
    (θ : TransformerParams) (x : List ℚ) : List ℚ :=
  let feats := SimpleEmbed.forwardRow θ.embed x
  let feats_w_ct := θ.clsToken :: feats
  let feats_w_tp := posEncode θ.pe feats_w_ct
  let xfeats := θ.blocks.foldl
    (fun acc bp => Block.forwardRow expF sqrtF actF eps bp acc) feats_w_tp
  (xfeats.map (layerNorm sqrtF eps θ.normF)).headD []

/-- `TransformerModel.forward` (lines 437-440) on one batch row: features
through the head (`embed_dim → 1`), squeezed to a scalar
(`self.head(feats).squeeze(-1)`; the head produces exactly one coordinate). -/
def TransformerModel.forwardRow (expF sqrtF actF : ℚ → ℚ) (eps : ℚ)
    (θ : TransformerParams) (x : List ℚ) : ℚ :=
  (applyLinear θ.headW θ.headB
    (TransformerModel.forward_features_row expF sqrtF actF eps θ x)).getD 0 0

/-- `TransformerModel.forward` over a batch: every tensor op of the source
acts independently inside each batch slice, so the batched forward pass is the
map of the per-row forward pass over the batch list. -/
def TransformerModel.forward (expF sqrtF actF : ℚ → ℚ) (eps : ℚ)
    (θ : TransformerParams) (batch : List (List ℚ)) : List ℚ :=
  batch.map (TransformerModel.forwardRow expF sqrtF actF eps θ)

/-- Shape facts about `AttentionParams` that `Attention.__init__` guarantees
when constructed with `dim`: `qkv = nn.Linear(dim, dim * 3)` and
`proj = nn.Linear(dim, dim)`. -/
def AttentionWf (dim : Nat) (p : AttentionParams) : Prop :=
  p.qkvW.length = 3 * dim ∧ p.qkvB.length = 3 * dim ∧
  p.projW.length = dim ∧ p.projB.length = dim

/-- Shape facts about the feed-forward sublayer constructed with
`in_features = dim`, `hidden_features = hidden`. -/
def MLPWf (dim hidden : Nat) (p : MLPParams) : Prop :=
  p.fc1W.length = hidden ∧ p.fc1B.length = hidden ∧
  p.fc2W.length = dim ∧ p.fc2B.length = dim

/-- Shape facts about one `Block` constructed with `dim`, `num_heads` and
`mlp_ratio = 4.0` (`mlp_hidden_dim = int(dim * mlp_ratio)`). -/
def BlockWf (dim hidden H : Nat) (p : BlockParams) : Prop :=
  p.attn.num_heads = H ∧ AttentionWf dim p.attn ∧ MLPWf dim hidden p.mlp

/-- Shape facts about a `TransformerModel` constructed with
`d_feat = F`, `embed_dim = dim`, `depth`, `num_heads = H` (defaults
`mlp_ratio = 4.0`, `qkv_bias = True`): the embedding projection is
`nn.Linear(F, dim)`, the cls token is one `dim`-vector, there are `depth`
blocks over `dim` with hidden width `4 * dim`, and the head is
`nn.Linear(dim, 1)`. -/
def TransformerWf (F dim depth H : Nat) (θ : TransformerParams) : Prop :=
  θ.embed.d_feat = F ∧ θ.embed.projW.length = dim ∧ θ.embed.projB.length = dim ∧
  θ.clsToken.length = dim ∧ θ.blocks.length = depth ∧
  (∀ b ∈ θ.blocks, BlockWf dim (4 * dim) H b) ∧
  θ.headW.length = 1 ∧ θ.headB.length = 1

namespace QExps

/-- A value stored in a configuration dictionary: an integer (e.g. a GPU
index) or a reference to another dictionary on the heap. Other value kinds
(strings, lists) are never inspected by `update_gpu` and are omitted. -/
inductive PyVal where
  | int (n : Int)
  | ref (a : Nat)
deriving DecidableEq

/-- A Python dict as an association list (first match wins, as in
`List.lookup`); insertion order is irrelevant to the claims. -/
abbrev PyDict := List (String × PyVal)

/-- The heap: which dictionary lives at which address. Object identity is
address identity. -/
abbrev Heap := Nat → PyDict

/-- `k in d`. -/
def hasKey (d : PyDict) (k : String) : Bool := (List.lookup k d).isSome

/-- `d[k] = v`: replace the value of an existing key, else append the key. -/
def dset (d : PyDict) (k : String) (v : PyVal) : PyDict :=
  match d with
  | [] => [(k, v)]
  | (k', v') :: rest => if k' = k then (k, v) :: rest else (k', v') :: dset rest k v

/-- Store dictionary `d` at address `a`. -/
def hset (h : Heap) (a : Nat) (d : PyDict) : Heap :=
  fun a' => if a' = a then d else h a'

/-- `key in value` for a dict-valued membership test; an integer value is not
a container, so the test raises `TypeError` (`none`). -/
def inTest (h : Heap) (v : PyVal) (k : String) : Option Bool :=
  match v with
  | .ref a => some (hasKey (h a) k)
  | .int _ => none

/-- Shared body of the three `... ["GPU"] = gpu` / `... ["kwargs"]["GPU"] = gpu`
write patterns: given the address `ma` of a model-configuration dict, write
the GPU value into it if it has a `"GPU"` key, else into its `"kwargs"` dict
if that one has a `"GPU"` key, else change nothing. -/
def writeModelGpu (h : Heap) (ma : Nat) (gpu : Int) : Option Heap :=
  if hasKey (h ma) "GPU" then
    some (hset h ma (dset (h ma) "GPU" (.int gpu)))
  else
    match List.lookup "kwargs" (h ma) with
    | none => some h
    | some (.ref ka) =>
        if hasKey (h ka) "GPU" then some (hset h ka (dset (h ka) "GPU" (.int gpu)))
        else some h
    | some (.int _) => none

/-- `update_gpu` (q_exps.py lines 13-29), with Python's aliasing made
explicit: `config.copy()` is a shallow copy — a new top-level dict at the
fresh address `fresh` whose values (including references to nested dicts) are
shared with the input at `self`. The `if/elif` chain then probes, in order,
`config["task"]["model"]`, `config["model"]`, `config["kwargs"]`, and finally
a top-level `"GPU"` key; every write except the top-level one goes through a
shared reference into a dict also reachable from the caller's input.
`none` models a `TypeError` from using `in` on a non-container. Returns the
new heap and the address of the returned mapping. -/
def update_gpu (h : Heap) (self fresh : Nat) (gpu : Int) : Option (Heap × Nat) :=
  let d := h self
  let h0 := hset h fresh d
  let c1 : Option Bool :=
    match List.lookup "task" d with
    | none => some false
    | some v => inTest h0 v "model"
  match c1 with
  | none => none
  | some true =>
      match List.lookup "task" d with
      | some (.ref ta) =>
          match List.lookup "model" (h0 ta) with
          | some (.ref ma) => (writeModelGpu h0 ma gpu).map (fun h' => (h', fresh))
          | some (.int _) => none
          | none => some (h0, fresh)
      | _ => some (h0, fresh)
  | some false =>
      if hasKey d "model" then
        match List.lookup "model" d with
        | some (.ref ma) => (writeModelGpu h0 ma gpu).map (fun h' => (h', fresh))
        | some (.int _) => none
        | none => some (h0, fresh)
      else
        match (match List.lookup "kwargs" d with
               | none => some false
               | some v => inTest h0 v "GPU" : Option Bool) with
        | none => none
        | some true =>
            match List.lookup "kwargs" d with
            | some (.ref ka) => some (hset h0 ka (dset (h0 ka) "GPU" (.int gpu)), fresh)
            | _ => some (h0, fresh)
        | some false =>
            if hasKey d "GPU" then some (hset h0 fresh (dset d "GPU" (.int gpu)), fresh)
            else some (h0, fresh)

end QExps

open QuantTransformer

/-! Helper lemmas shared by several claim proofs. -/

theorem maskSelect_of_all_false {mask : List Bool} (l : List RVal)
    (h : ∀ b ∈ mask, b = false) : maskSelect mask l = [] := by
  unfold maskSelect
  rw [List.filterMap_eq_nil_iff]
  intro p hp
  have := (List.of_mem_zip hp).1
  simp [h p.1 this]

/-- C2: Optimizer selection at construction. The claim's first two parts hold:
the string "adam" builds an Adam optimizer, and the SGD fallback branch is
unreachable for every input (its guard repeats the first branch's guard). The
claim's error part is where the code is broken: for any other optimizer
string, construction does fail eagerly, but with a `NameError` (the `raise`
statement's message formats the unbound name `optimizer`), not with a
well-formed unsupported-optimizer configuration error. -/
theorem optimizer_selection_eager_failure :
    QuantTransformer.init "adam" = .ok ⟨.adam, false⟩ ∧
    (∀ s : String, ∀ st : InitState,
      QuantTransformer.init s = .ok st → st.optimizer ≠ .sgd) ∧
    (∀ s : String, s ≠ "adam" →
      QuantTransformer.init s = .error (.nameError "optimizer")) := by
  refine ⟨rfl, ?_, ?_⟩
  · intro s st h hsgd
    by_cases hs : s = "adam"
    · rw [hs] at h
      simp [QuantTransformer.init, selectOptimizer] at h
      rw [← h] at hsgd
      exact absurd hsgd (by simp)
    · simp [QuantTransformer.init, selectOptimizer, hs] at h
  · intro s hs
    simp [QuantTransformer.init, selectOptimizer, hs]

/-- Witness for `optimizer_selection_eager_failure` at the concrete
unsupported optimizer string "sgd". -/
theorem optimizer_selection_eager_failure_witness :
    QuantTransformer.init "sgd" = .error (.nameError "optimizer") :=
  optimizer_selection_eager_failure.2.2 "sgd" (by decide)

/-- C3: Masked loss on an all-missing batch. The claim (and §8 of the spec)
requires the aggregate not to be `nan`, but `loss_fn` has no special case for
the empty mask: when every label is `nan`, both selections are empty and
`F.mse_loss` of empty tensors is the mean of zero elements, i.e. `nan`, which
`metric_fn` then negates into a `nan` score. The code therefore violates the
claim at every all-`nan` batch. -/
theorem loss_fn_all_nan_labels_returns_nan :
    (∀ pred label : List RVal, (∀ l ∈ label, l.isnan = true) →
      loss_fn "mse" pred label = .ok RVal.nan) ∧
    loss_fn "mse" [RVal.num 0] [RVal.nan] = .ok RVal.nan ∧
    metric_fn "" "mse" [RVal.num 0] [RVal.nan] = .ok RVal.nan := by
  refine ⟨?_, by rfl, by rfl⟩
  intro pred label h
  have hmask : ∀ b ∈ label.map (fun l => !l.isnan), b = false := by
    intro b hb
    obtain ⟨l, hl, rfl⟩ := List.mem_map.1 hb
    simp [h l hl]
  have hsel : maskSelect (label.map (fun l => !l.isnan)) pred = [] :=
    maskSelect_of_all_false pred hmask
  simp [loss_fn, hsel, mse_loss, RVal.sumL, RVal.divCount]

/-- Witness for `loss_fn_all_nan_labels_returns_nan` at the concrete
one-row batch whose only label is `nan`. -/
theorem loss_fn_all_nan_labels_returns_nan_witness :
    loss_fn "mse" [RVal.num 2] [RVal.nan] = .ok RVal.nan :=
  loss_fn_all_nan_labels_returns_nan.1 [RVal.num 2] [RVal.nan] (by decide)

/-- C4: Inference state precondition. A `predict` call on a model whose
`fitted` flag is unset fails with the state error; a `fit` that completes
successfully sets the flag; and with the flag set, `predict` never fails with
that state error again (its remaining failure modes are different errors). -/
theorem predict_state_precondition :
    (∀ dev f bs x, predict dev false f bs x = .error notFittedError) ∧
    (∀ (P : Type) (dev : Device) (e es : Nat) (tS vS teS : Nat → ℚ)
       (ps : Nat → P) (r : FitResult P),
      QuantTransformer.fit dev e es tS vS teS ps = some r → r.fitted = true) ∧
    (∀ dev f bs x, predict dev true f bs x ≠ .error notFittedError) := by
  refine ⟨?_, ?_, ?_⟩
  · intro dev f bs x
    simp [predict]
  · intro P dev e es tS vS teS ps r h
    dsimp only [QuantTransformer.fit] at h
    split at h
    · exact absurd h (by simp)
    · rw [Option.some_inj] at h
      rw [← h]
  · intro dev f bs x h
    unfold predict at h
    simp only [Bool.true_eq_false, if_false] at h
    split at h
    · rw [Except.error.injEq] at h
      exact absurd h (by decide)
    · split at h
      · rw [Except.error.injEq] at h
        exact absurd h (by decide)
      · exact absurd h (by simp)

/-- Witness for `predict_state_precondition` at a concrete one-row table and
a concrete successful fit. -/
theorem predict_state_precondition_witness :
    predict Device.cpu false (fun _ => 0) 1 [(0, [1])] = .error notFittedError ∧
    (∀ r : FitResult ℚ,
      QuantTransformer.fit Device.cpu 1 1 (fun _ => 0) (fun _ => 0) (fun _ => 0)
        (fun _ => (0 : ℚ)) = some r → r.fitted = true) ∧
    predict Device.cpu true (fun _ => 0) 1 [(0, [1])] ≠ .error notFittedError :=
  ⟨predict_state_precondition.1 Device.cpu (fun _ => 0) 1 [(0, [1])],
   fun r h => predict_state_precondition.2.1 ℚ Device.cpu 1 1 _ _ _ _ r h,
   predict_state_precondition.2.2 Device.cpu (fun _ => 0) 1 [(0, [1])]⟩

/-- C9: the `use_gpu` property evaluates its comparison without returning it,
so it yields Python `None` — a falsy value — for every device. Consequently
the device branch in `predict` always takes the non-GPU numpy-conversion arm,
and a successful `fit` never executes the GPU cache-clearing branch, whatever
device the model was placed on. -/
theorem use_gpu_always_none :
    (∀ d : Device, use_gpu d = none) ∧
    (∀ d : Device, pyTruthy (use_gpu d) = false) ∧
    (∀ d : Device, predictGpuBranch d = false) ∧
    (∀ (P : Type) (dev : Device) (e es : Nat) (tS vS teS : Nat → ℚ)
       (ps : Nat → P) (r : FitResult P),
      QuantTransformer.fit dev e es tS vS teS ps = some r →
      r.clearedGpuCache = false) := by
  refine ⟨fun d => rfl, fun d => rfl, fun d => rfl, ?_⟩
  intro P dev e es tS vS teS ps r h
  dsimp only [QuantTransformer.fit] at h
  split at h
  · exact absurd h (by simp)
  · rw [Option.some_inj] at h
    rw [← h]
    rfl

/-- Witness for `use_gpu_always_none`: a concrete successful fit on a CUDA
device whose result did not clear the GPU cache. -/
theorem use_gpu_always_none_witness :
    ∃ r : FitResult ℚ,
      QuantTransformer.fit (Device.cuda 0) 1 1 (fun _ => 0) (fun _ => 0) (fun _ => 0)
        (fun _ => (0 : ℚ)) = some r ∧ r.clearedGpuCache = false := by
  have hfit : QuantTransformer.fit (Device.cuda 0) 1 1 (fun _ => 0) (fun _ => 0)
      (fun _ => 0) (fun _ => (0 : ℚ)) =
      some ⟨1, 0, some 0, 0, 0, [0], [0], ["train", "valid"], false, true⟩ := by rfl
  exact ⟨_, hfit, use_gpu_always_none.2.2.2 ℚ (Device.cuda 0) 1 1 _ _ _ _ _ hfit⟩

theorem sliceStep_nil {α : Type} (s : Nat) : sliceStep ([] : List α) s = [] := by
  simp [sliceStep]

theorem sliceStep_cons {α : Type} (x : α) (xs : List α) (s : Nat) :
    sliceStep (x :: xs) s = x :: sliceStep (xs.drop (s - 1)) s := by
  rw [sliceStep]

theorem sliceStep_map {α β : Type} (g : α → β) (s : Nat) (l : List α) :
    sliceStep (l.map g) s = (sliceStep l s).map g := by
  have aux : ∀ (n : Nat) (l : List α), l.length ≤ n →
      sliceStep (l.map g) s = (sliceStep l s).map g := by
    intro n
    induction n with
    | zero =>
      intro l hl
      rw [List.eq_nil_of_length_eq_zero (Nat.le_zero.mp hl)]
      simp [sliceStep_nil]
    | succ n ih =>
      intro l hl
      match l with
      | [] => simp [sliceStep_nil]
      | x :: xs =>
        rw [List.map_cons, sliceStep_cons, sliceStep_cons, List.map_cons,
          ← List.map_drop, ih (xs.drop (s - 1))]
        calc (xs.drop (s - 1)).length ≤ xs.length := by
              rw [List.length_drop]; exact Nat.sub_le _ _
          _ ≤ n := Nat.le_of_succ_le_succ hl
  exact aux l.length l (Nat.le_refl _)

theorem drop_range (n d : Nat) :
    (List.range n).drop d = (List.range (n - d)).map (· + d) := by
  rcases Nat.le_total d n with h | h
  · have hn : n = d + (n - d) := (Nat.add_sub_cancel' h).symm
    rw [hn, List.range_add, Nat.add_sub_cancel_left,
      List.drop_left' (List.length_range d)]
    exact List.map_congr_left (fun a _ => Nat.add_comm d a)
  · rw [List.drop_eq_nil_of_le (by rw [List.length_range]; exact h),
      Nat.sub_eq_zero_of_le h]
    simp

theorem sliceStep_range_succ {n s : Nat} (hs : 1 ≤ s) (hn : 0 < n) :
    sliceStep (List.range n) s = 0 :: (sliceStep (List.range (n - s)) s).map (· + s) := by
  obtain ⟨m, rfl⟩ : ∃ m, n = m + 1 := ⟨n - 1, by omega⟩
  rw [List.range_succ_eq_map, sliceStep_cons, ← List.map_drop, drop_range,
    List.map_map]
  have : (Nat.succ ∘ (· + (s - 1))) = (· + s) := by
    funext x
    simp only [Function.comp]
    omega
  rw [this, show m - (s - 1) = m + 1 - s by omega, sliceStep_map]

theorem chunk_take_norm {α : Type} (rows : List α) (b s : Nat) (hs : 1 ≤ s) :
    (rows.drop b).take ((if rows.length - b < s then rows.length else b + s) - b) =
    (rows.drop b).take s := by
  split
  · next hlt =>
    have hlen : (rows.drop b).length = rows.length - b := List.length_drop _ _
    rw [List.take_of_length_le (by omega), List.take_of_length_le (by omega)]
  · next hge => congr 1; omega

theorem sliceStep_chunks_flatten {α β : Type} (f : α → β) (s : Nat) (hs : 1 ≤ s)
    (rows : List α) :
    ((sliceStep (List.range rows.length) s).map
      (fun b => ((rows.drop b).take s).map f)).flatten = rows.map f := by
  have aux : ∀ (n : Nat) (rows : List α), rows.length ≤ n →
      ((sliceStep (List.range rows.length) s).map
        (fun b => ((rows.drop b).take s).map f)).flatten = rows.map f := by
    intro n
    induction n with
    | zero =>
      intro rows hr
      rw [List.eq_nil_of_length_eq_zero (Nat.le_zero.mp hr)]
      simp [sliceStep_nil]
    | succ n ih =>
      intro rows hr
      rcases Nat.eq_zero_or_pos rows.length with h0 | hpos
      · rw [List.eq_nil_of_length_eq_zero h0]
        simp [sliceStep_nil]
      · rw [sliceStep_range_succ hs hpos, List.map_cons, List.flatten_cons,
          List.map_map]
        have hshift : ∀ b : Nat,
            ((fun b => ((rows.drop b).take s).map f) ∘ (· + s)) b =
            (fun b => (((rows.drop s).drop b).take s).map f) b := by
          intro b
          simp only [Function.comp]
          rw [List.drop_drop, Nat.add_comm s b]
        rw [List.map_congr_left (fun b _ => hshift b)]
        have hlen : (rows.drop s).length = rows.length - s := List.length_drop _ _
        have ihres := ih (rows.drop s) (by omega)
        rw [hlen] at ihres
        rw [ihres, List.drop_zero, ← List.map_append, List.take_append_drop]
  exact aux rows.length rows (Nat.le_refl _)

/-- C5 counterexample: the claim quantifies over every input feature table
and every chunk size, but `predict` fails on the empty table (the chunk list
is empty, and `np.concatenate([])` raises `ValueError`) and on chunk size 0
(`range(n)[::0]` raises `ValueError`), returning no series at all in either
case. -/
theorem predict_order_invariance_counterexample :
    predict Device.cpu true (fun _ => 0) 1 [] = .error concatEmptyError ∧
    predict Device.cpu true (fun _ => 0) 0 [(0, [1])] = .error sliceStepZeroError := by
  constructor
  · simp [predict, sliceStep_nil]
  · simp [predict]

/-- C5 (amended): for every fitted model, every chunk size at least 1 and
every nonempty feature table, `predict` processes the rows in fixed-size
chunks in input order, produces one scalar per row, and returns a series
whose values are the per-row model outputs in the table's original row order
and whose index is the table's original row identifiers. -/
theorem predict_order_invariance_amended
    (dev : Device) (f : List ℚ → ℚ) (bs : Nat) (x_test : List (Nat × List ℚ))
    (hbs : 1 ≤ bs) (hne : x_test ≠ []) :
    predict dev true f bs x_test =
      .ok ⟨x_test.map Prod.fst, (x_test.map Prod.snd).map f⟩ ∧
    ((x_test.map Prod.snd).map f).length = x_test.length := by
  constructor
  · unfold predict
    rw [if_neg (by simp)]
    dsimp only
    rw [if_neg (by omega)]
    have hn : 0 < (x_test.map Prod.snd).length := by
      rw [List.length_map]
      exact List.length_pos.mpr hne
    have hbody : ∀ b : Nat,
        (fun b =>
          let e := if (x_test.map Prod.snd).length - b < bs
                   then (x_test.map Prod.snd).length else b + bs
          let x_batch := ((x_test.map Prod.snd).drop b).take (e - b)
          if predictGpuBranch dev then x_batch.map f else x_batch.map f) b =
        (fun b => (((x_test.map Prod.snd).drop b).take bs).map f) b := by
      intro b
      simp only [ite_self]
      rw [chunk_take_norm _ _ _ hbs]
    rw [List.map_congr_left (fun b _ => hbody b)]
    rw [sliceStep_range_succ hbs hn, List.map_cons]
    have hflat := sliceStep_chunks_flatten f bs hbs (x_test.map Prod.snd)
    rw [sliceStep_range_succ hbs hn, List.map_cons] at hflat
    rw [hflat]
  · rw [List.length_map, List.length_map]

/-- Witness for `predict_order_invariance_amended` at a concrete three-row
table with chunk size 2. -/
theorem predict_order_invariance_amended_witness :
    predict Device.cpu true List.sum 2 [(7, [1]), (8, [2]), (9, [3])] =
      .ok ⟨[(7, ([1] : List ℚ)), (8, [2]), (9, [3])].map Prod.fst,
           ([(7, ([1] : List ℚ)), (8, [2]), (9, [3])].map Prod.snd).map List.sum⟩ :=
  (predict_order_invariance_amended Device.cpu List.sum 2
    [(7, [1]), (8, [2]), (9, [3])] (by omega) (by simp)).1

theorem range_map_shift {α : Type} (g : Nat → α) (k i : Nat) :
    (List.range (k + 1)).map (fun j => g (i + j)) =
    g i :: (List.range k).map (fun j => g (i + 1 + j)) := by
  rw [List.range_succ_eq_map, List.map_cons, List.map_map]
  refine congrArg₂ _ (by rw [Nat.add_zero]) ?_
  refine List.map_congr_left (fun a _ => ?_)
  simp only [Function.comp, Nat.succ_eq_add_one]
  exact congrArg g (by omega)

theorem runEpochs_improving {P : Type} (ES : Nat) (tS vS teS : Nat → ℚ) (ps : Nat → P) :
    ∀ (k i rem : Nat) (st : LoopState P), k + 1 ≤ rem →
      improves (vS i) st.best_score = true →
      (∀ j, j < k → improves (vS (i + j + 1)) (some (vS (i + j))) = true) →
      runEpochs ES tS vS teS ps i rem st =
        ((runEpochs ES tS vS teS ps (i + (k + 1)) (rem - (k + 1))
            ⟨0, some (vS (i + k)), i + k, some (ps (i + k)),
             st.evalsTrain ++ (List.range (k + 1)).map (fun j => tS (i + j)),
             st.evalsValid ++ (List.range (k + 1)).map (fun j => vS (i + j))⟩).1,
         (runEpochs ES tS vS teS ps (i + (k + 1)) (rem - (k + 1))
            ⟨0, some (vS (i + k)), i + k, some (ps (i + k)),
             st.evalsTrain ++ (List.range (k + 1)).map (fun j => tS (i + j)),
             st.evalsValid ++ (List.range (k + 1)).map (fun j => vS (i + j))⟩).2 + (k + 1)) := by
  intro k
  induction k with
  | zero =>
    intro i rem st hrem himp _
    obtain ⟨r, rfl⟩ : ∃ r, rem = r + 1 := ⟨rem - 1, by omega⟩
    rw [runEpochs]
    rw [if_pos himp]
    have hst : epochUpdate tS vS teS ps i st =
        (⟨0, some (vS (i + 0)), i + 0, some (ps (i + 0)),
          st.evalsTrain ++ (List.range 1).map (fun j => tS (i + j)),
          st.evalsValid ++ (List.range 1).map (fun j => vS (i + j))⟩ : LoopState P) := by
      unfold epochUpdate
      rw [if_pos himp]
      simp only [LoopState.mk.injEq]
      refine ⟨trivial, ?_, ?_, ?_, ?_, ?_⟩ <;> simp [List.range_succ]
    rw [hst]
    rfl
  | succ k ih =>
    intro i rem st hrem himp hchain
    obtain ⟨r, rfl⟩ : ∃ r, rem = r + 1 := ⟨rem - 1, by omega⟩
    rw [runEpochs]
    rw [if_pos himp]
    have hst : epochUpdate tS vS teS ps i st =
        (⟨0, some (vS i), i, some (ps i),
          st.evalsTrain ++ [tS i], st.evalsValid ++ [vS i]⟩ : LoopState P) := by
      unfold epochUpdate
      rw [if_pos himp]
    rw [hst]
    have himp1 : improves (vS (i + 1))
        ((⟨0, some (vS i), i, some (ps i), st.evalsTrain ++ [tS i],
          st.evalsValid ++ [vS i]⟩ : LoopState P)).best_score = true := by
      exact hchain 0 (Nat.succ_pos k)
    have hchain1 : ∀ j, j < k →
        improves (vS (i + 1 + j + 1)) (some (vS (i + 1 + j))) = true := by
      intro j hj
      have e1 : i + 1 + j = i + (j + 1) := by omega
      rw [e1]
      exact hchain (j + 1) (by omega)
    rw [ih (i + 1) r _ (by omega) himp1 hchain1]
    have hstate :
        (⟨0, some (vS (i + 1 + k)), i + 1 + k, some (ps (i + 1 + k)),
          (st.evalsTrain ++ [tS i]) ++ (List.range (k + 1)).map (fun j => tS (i + 1 + j)),
          (st.evalsValid ++ [vS i]) ++ (List.range (k + 1)).map (fun j => vS (i + 1 + j))⟩ :
          LoopState P) =
        ⟨0, some (vS (i + (k + 1))), i + (k + 1), some (ps (i + (k + 1))),
          st.evalsTrain ++ (List.range (k + 1 + 1)).map (fun j => tS (i + j)),
          st.evalsValid ++ (List.range (k + 1 + 1)).map (fun j => vS (i + j))⟩ := by
      have e2 : i + 1 + k = i + (k + 1) := by omega
      rw [range_map_shift tS (k + 1) i, range_map_shift vS (k + 1) i, e2]
      simp [List.append_assoc]
    rw [hstate]
    have e3 : i + 1 + (k + 1) = i + (k + 1 + 1) := by omega
    have e4 : r - (k + 1) = r + 1 - (k + 1 + 1) := by omega
    rw [e3, e4]
    exact congrArg₂ Prod.mk rfl (by omega)

theorem runEpochs_stalling {P : Type} (ES : Nat) (tS vS teS : Nat → ℚ) (ps : Nat → P) :
    ∀ (t i rem : Nat) (st : LoopState P), 1 ≤ t → st.stop_steps + t = ES → t ≤ rem →
      (∀ j, j < t → improves (vS (i + j)) st.best_score = false) →
      runEpochs ES tS vS teS ps i rem st =
        (⟨ES, st.best_score, st.best_epoch, st.best_param,
          st.evalsTrain ++ (List.range t).map (fun j => tS (i + j)),
          st.evalsValid ++ (List.range t).map (fun j => vS (i + j))⟩, t) := by
  intro t
  induction t with
  | zero => intro i rem st ht; omega
  | succ t ih =>
    intro i rem st _ hes hrem hstall
    obtain ⟨r, rfl⟩ : ∃ r, rem = r + 1 := ⟨rem - 1, by omega⟩
    rw [runEpochs]
    have h0 : improves (vS i) st.best_score = false := by
      have := hstall 0 (Nat.succ_pos t)
      rwa [Nat.add_zero] at this
    rw [if_neg (by rw [h0]; exact Bool.false_ne_true)]
    have hst : epochUpdate tS vS teS ps i st =
        (⟨st.stop_steps + 1, st.best_score, st.best_epoch, st.best_param,
          st.evalsTrain ++ [tS i], st.evalsValid ++ [vS i]⟩ : LoopState P) := by
      unfold epochUpdate
      rw [if_neg (by rw [h0]; exact Bool.false_ne_true)]
    rw [hst]
    rcases Nat.eq_zero_or_pos t with ht0 | htpos
    · subst ht0
      rw [if_pos (by simpa using Nat.le_of_eq hes.symm)]
      refine congrArg₂ Prod.mk ?_ rfl
      simp only [LoopState.mk.injEq]
      refine ⟨by omega, trivial, trivial, trivial, ?_, ?_⟩ <;> simp [List.range_succ]
    · rw [if_neg (by simp; omega)]
      have hstall1 : ∀ j, j < t →
          improves (vS (i + 1 + j))
            ((⟨st.stop_steps + 1, st.best_score, st.best_epoch, st.best_param,
              st.evalsTrain ++ [tS i], st.evalsValid ++ [vS i]⟩ : LoopState P)).best_score
            = false := by
        intro j hj
        have e1 : i + 1 + j = i + (j + 1) := by omega
        rw [e1]
        exact hstall (j + 1) (by omega)
      rw [ih (i + 1) r _ htpos (by simp; omega) (by omega) hstall1]
      refine congrArg₂ Prod.mk ?_ rfl
      simp only [LoopState.mk.injEq]
      refine ⟨trivial, trivial, trivial, trivial, ?_, ?_⟩
      · rw [range_map_shift tS t i]
        simp [List.append_assoc]
      · rw [range_map_shift vS t i]
        simp [List.append_assoc]

theorem epochUpdate_evalsTrain {P : Type} (tS vS teS : Nat → ℚ) (ps : Nat → P)
    (i : Nat) (st : LoopState P) :
    (epochUpdate tS vS teS ps i st).evalsTrain = st.evalsTrain ++ [tS i] := by
  unfold epochUpdate
  dsimp only
  split <;> rfl

theorem epochUpdate_evalsValid {P : Type} (tS vS teS : Nat → ℚ) (ps : Nat → P)
    (i : Nat) (st : LoopState P) :
    (epochUpdate tS vS teS ps i st).evalsValid = st.evalsValid ++ [vS i] := by
  unfold epochUpdate
  dsimp only
  split <;> rfl

theorem runEpochs_evals {P : Type} (ES : Nat) (tS vS teS : Nat → ℚ) (ps : Nat → P) :
    ∀ (rem i : Nat) (st : LoopState P),
      (runEpochs ES tS vS teS ps i rem st).1.evalsTrain =
        st.evalsTrain ++
          (List.range (runEpochs ES tS vS teS ps i rem st).2).map (fun j => tS (i + j)) ∧
      (runEpochs ES tS vS teS ps i rem st).1.evalsValid =
        st.evalsValid ++
          (List.range (runEpochs ES tS vS teS ps i rem st).2).map (fun j => vS (i + j)) := by
  intro rem
  induction rem with
  | zero => intro i st; simp [runEpochs]
  | succ rem ih =>
    intro i st
    rw [runEpochs]
    by_cases himp : improves (vS i) st.best_score = true
    · rw [if_pos himp]
      dsimp only
      obtain ⟨iht, ihv⟩ := ih (i + 1) (epochUpdate tS vS teS ps i st)
      rw [iht, ihv, epochUpdate_evalsTrain, epochUpdate_evalsValid]
      rw [range_map_shift tS _ i, range_map_shift vS _ i]
      constructor <;> simp [List.append_assoc]
    · rw [if_neg himp]
      by_cases hbrk : ES ≤ (epochUpdate tS vS teS ps i st).stop_steps
      · rw [if_pos hbrk]
        dsimp only
        rw [epochUpdate_evalsTrain, epochUpdate_evalsValid]
        constructor <;> simp [List.range_succ]
      · rw [if_neg hbrk]
        dsimp only
        obtain ⟨iht, ihv⟩ := ih (i + 1) (epochUpdate tS vS teS ps i st)
        rw [iht, ihv, epochUpdate_evalsTrain, epochUpdate_evalsValid]
        rw [range_map_shift tS _ i, range_map_shift vS _ i]
        constructor <;> simp [List.append_assoc]

/-- C1: Early stopping and checkpoint selection in `fit`. For a validation
score sequence that strictly increases over the first `K` epochs
(epoch indices `0 … K-1`) and never improves for the next `early_stop`
epochs, the loop runs exactly `K + early_stop` epochs and then stops; the
best epoch is the `K`-th one (index `K - 1`), and the parameters restored
into the model and persisted are the snapshot taken at that epoch — not the
live parameters of the last executed epoch. The last two conjuncts capture
the per-epoch transition rule: a strictly-improving epoch resets the stall
counter to zero and snapshots the parameters, and any other epoch increments
the counter and leaves the snapshot alone. -/
theorem fit_early_stop_selects_best_epoch_snapshot {P : Type}
    (dev : Device) (epochs ES K : Nat) (tS vS teS : Nat → ℚ) (ps : Nat → P)
    (hK : 1 ≤ K) (hES : 1 ≤ ES) (hep : K + ES ≤ epochs)
    (hinc : ∀ j, j + 1 < K → vS j < vS (j + 1))
    (hstall : ∀ j, K ≤ j → j < K + ES → vS j ≤ vS (K - 1)) :
    (∃ r : FitResult P,
      QuantTransformer.fit dev epochs ES tS vS teS ps = some r ∧
      r.completedEpochs = K + ES ∧
      r.best_epoch = K - 1 ∧
      r.savedParam = ps (K - 1) ∧
      r.modelParam = ps (K - 1) ∧
      (ps (K - 1) ≠ ps (K + ES - 1) → r.savedParam ≠ ps (K + ES - 1))) ∧
    (∀ (i : Nat) (st : LoopState P), improves (vS i) st.best_score = true →
      (epochUpdate tS vS teS ps i st).stop_steps = 0 ∧
      (epochUpdate tS vS teS ps i st).best_epoch = i ∧
      (epochUpdate tS vS teS ps i st).best_param = some (ps i)) ∧
    (∀ (i : Nat) (st : LoopState P), improves (vS i) st.best_score = false →
      (epochUpdate tS vS teS ps i st).stop_steps = st.stop_steps + 1 ∧
      (epochUpdate tS vS teS ps i st).best_param = st.best_param) := by
  refine ⟨?_, ?_, ?_⟩
  · obtain ⟨k, rfl⟩ : ∃ k, K = k + 1 := ⟨K - 1, by omega⟩
    have himp0 : improves (vS 0) ((⟨0, none, 0, none, [], []⟩ : LoopState P)).best_score
        = true := rfl
    have hchain : ∀ j, j < k → improves (vS (0 + j + 1)) (some (vS (0 + j))) = true := by
      intro j hj
      simp only [Nat.zero_add, improves, decide_eq_true_eq]
      exact hinc j (by omega)
    have hA := runEpochs_improving ES tS vS teS ps k 0 epochs
        ⟨0, none, 0, none, [], []⟩ (by omega) himp0 hchain
    have hstall' : ∀ j, j < ES →
        improves (vS (0 + (k + 1) + j))
          ((⟨0, some (vS (0 + k)), 0 + k, some (ps (0 + k)),
            ([] : List ℚ) ++ (List.range (k + 1)).map (fun j => tS (0 + j)),
            ([] : List ℚ) ++ (List.range (k + 1)).map (fun j => vS (0 + j))⟩ :
            LoopState P)).best_score = false := by
      intro j hj
      simp only [Nat.zero_add, improves, decide_eq_false_iff_not, not_lt]
      have h1 := hstall (k + 1 + j) (by omega) (by omega)
      rwa [show k + 1 - 1 = k from by omega] at h1
    have hB := runEpochs_stalling ES tS vS teS ps ES (0 + (k + 1)) (epochs - (k + 1))
        ⟨0, some (vS (0 + k)), 0 + k, some (ps (0 + k)),
         ([] : List ℚ) ++ (List.range (k + 1)).map (fun j => tS (0 + j)),
         ([] : List ℚ) ++ (List.range (k + 1)).map (fun j => vS (0 + j))⟩
        hES (by simp) (by omega) hstall'
    refine ⟨⟨ES + (k + 1), 0 + k, some (vS (0 + k)), ps (0 + k), ps (0 + k),
        (([] : List ℚ) ++ (List.range (k + 1)).map (fun j => tS (0 + j))) ++
          (List.range ES).map (fun j => tS (0 + (k + 1) + j)),
        (([] : List ℚ) ++ (List.range (k + 1)).map (fun j => vS (0 + j))) ++
          (List.range ES).map (fun j => vS (0 + (k + 1) + j)),
        ["train", "valid"], pyTruthy (use_gpu dev), true⟩, ?_, ?_, ?_, ?_, ?_, ?_⟩
    · unfold QuantTransformer.fit
      dsimp only
      rw [hA, hB]
    · show ES + (k + 1) = k + 1 + ES
      omega
    · show 0 + k = k + 1 - 1
      omega
    · show ps (0 + k) = ps (k + 1 - 1)
      exact congrArg ps (by omega)
    · show ps (0 + k) = ps (k + 1 - 1)
      exact congrArg ps (by omega)
    · intro hne
      show ps (0 + k) ≠ ps (k + 1 + ES - 1)
      rwa [show 0 + k = k + 1 - 1 from by omega]
  · intro i st himp
    unfold epochUpdate
    dsimp only
    rw [if_pos himp]
    exact ⟨rfl, rfl, rfl⟩
  · intro i st himp
    unfold epochUpdate
    dsimp only
    rw [if_neg (by rw [himp]; exact Bool.false_ne_true)]
    exact ⟨rfl, rfl⟩

/-- Witness for `fit_early_stop_selects_best_epoch_snapshot` at the concrete
run `K = 2`, `early_stop = 1`, `epochs = 5`, with validation scores
`0, 1, 1, …` and per-epoch parameters `ps i = i`. -/
theorem fit_early_stop_selects_best_epoch_snapshot_witness :
    ∃ r : FitResult ℚ,
      QuantTransformer.fit Device.cpu 5 1 (fun _ => 0)
        (fun i => if i < 2 then (i : ℚ) else 1) (fun _ => 0) (fun i => (i : ℚ)) = some r ∧
      r.completedEpochs = 2 + 1 ∧
      r.best_epoch = 2 - 1 ∧
      r.savedParam = ((2 - 1 : Nat) : ℚ) ∧
      r.modelParam = ((2 - 1 : Nat) : ℚ) ∧
      (((2 - 1 : Nat) : ℚ) ≠ ((2 + 1 - 1 : Nat) : ℚ) →
        r.savedParam ≠ ((2 + 1 - 1 : Nat) : ℚ)) :=
  (fit_early_stop_selects_best_epoch_snapshot Device.cpu 5 1 2 (fun _ => 0)
    (fun i => if i < 2 then (i : ℚ) else 1) (fun _ => 0) (fun i => (i : ℚ))
    (by omega) (by omega) (by omega)
    (by
      intro j hj
      have hj0 : j = 0 := by omega
      subst hj0
      norm_num)
    (by
      intro j h2 h3
      have hj2 : j = 2 := by omega
      subst hj2
      norm_num)).1

/-- C6 counterexample: the record built by `fit` does not contain a
test-score sequence: `fit` initialises and appends only the `"train"` and
`"valid"` keys of `evals_result` (lines 194-195 and 219-220), so an entry
cannot contain all three of train, valid and test score. Here a concrete
completed run's record has exactly the keys `"train"` and `"valid"`. -/
theorem training_record_lacks_test_counterexample :
    (QuantTransformer.fit Device.cpu 1 1 (fun _ => 0) (fun _ => 0) (fun _ => 0)
      (fun _ => (0 : ℚ))).map FitResult.evalsKeys = some ["train", "valid"] ∧
    "test" ∉ (["train", "valid"] : List String) :=
  ⟨rfl, by decide⟩

/-- C6 (amended): the record appended during `fit` is an ordered, append-only
sequence with exactly one entry per completed epoch, and each entry contains
the train score and the valid score computed by the evaluating phase; the
test score is computed each epoch by `_internal_test` but never appended to
the record, whose key set is exactly `"train"` and `"valid"`. -/
theorem training_record_per_epoch_amended {P : Type}
    (dev : Device) (epochs ES : Nat) (tS vS teS : Nat → ℚ) (ps : Nat → P)
    (r : FitResult P)
    (h : QuantTransformer.fit dev epochs ES tS vS teS ps = some r) :
    r.evalsTrain.length = r.completedEpochs ∧
    r.evalsValid.length = r.completedEpochs ∧
    (∀ j, j < r.completedEpochs →
      r.evalsTrain.getD j 0 = tS j ∧ r.evalsValid.getD j 0 = vS j) ∧
    r.evalsKeys = ["train", "valid"] ∧
    "test" ∉ r.evalsKeys := by
  obtain ⟨ht, hv⟩ := runEpochs_evals ES tS vS teS ps epochs 0
      (⟨0, none, 0, none, [], []⟩ : LoopState P)
  dsimp only [QuantTransformer.fit] at h
  split at h
  · exact absurd h (by simp)
  · rw [Option.some_inj] at h
    subst h
    simp only [List.nil_append] at ht hv
    refine ⟨?_, ?_, ?_, rfl, ?_⟩
    · dsimp only
      rw [ht, List.length_map, List.length_range]
    · dsimp only
      rw [hv, List.length_map, List.length_range]
    · intro j hj
      dsimp only at hj ⊢
      rw [ht, hv]
      constructor
      · rw [List.getD_eq_getElem?_getD, List.getElem?_map, List.getElem?_range hj]
        simp
      · rw [List.getD_eq_getElem?_getD, List.getElem?_map, List.getElem?_range hj]
        simp
    · dsimp only
      decide

/-- Witness for `training_record_per_epoch_amended` at a concrete completed
two-epoch run. -/
theorem training_record_per_epoch_amended_witness :
    ∃ r : FitResult ℚ,
      QuantTransformer.fit Device.cpu 2 5 (fun i => (i : ℚ)) (fun i => (i : ℚ))
        (fun _ => 0) (fun _ => (0 : ℚ)) = some r ∧
      r.evalsTrain.length = r.completedEpochs ∧
      "test" ∉ r.evalsKeys := by
  have hfit : QuantTransformer.fit Device.cpu 2 5 (fun i => (i : ℚ)) (fun i => (i : ℚ))
      (fun _ => 0) (fun _ => (0 : ℚ)) =
      some ⟨2, 1, some 1, 0, 0, [0, 1], [0, 1], ["train", "valid"], false, true⟩ := by
    rfl
  obtain ⟨h1, _, _, _, h5⟩ := training_record_per_epoch_amended Device.cpu 2 5
    (fun i => (i : ℚ)) (fun i => (i : ℚ)) (fun _ => 0) (fun _ => (0 : ℚ)) _ hfit
  exact ⟨_, hfit, h1, h5⟩

theorem getD_take_drop (x : List ℚ) (a T t : Nat) (ht : t < T) :
    ((x.drop a).take T).getD t 0 = x.getD (a + t) 0 := by
  rw [List.getD_eq_getElem?_getD, List.getD_eq_getElem?_getD, List.getElem?_take,
    if_pos ht, List.getElem?_drop]

theorem permute_reshape_entries (F T : Nat) (x : List ℚ) (hF : 1 ≤ F)
    (hx : x.length = F * T) :
    permute021 (reshapeFT F x) =
      (List.range T).map (fun t => (List.range F).map (fun f => x.getD (f * T + t) 0)) := by
  have hT : x.length / F = T := by
    rw [hx]
    exact Nat.mul_div_cancel_left T (by omega)
  unfold reshapeFT permute021
  dsimp only
  rw [hT]
  have hhead :
      ((((List.range F).map (fun i => (x.drop (i * T)).take T)).headD []).length) = T := by
    obtain ⟨F', rfl⟩ : ∃ F', F = F' + 1 := ⟨F - 1, by omega⟩
    rw [List.range_succ_eq_map, List.map_cons, List.headD_cons, Nat.zero_mul,
      List.drop_zero, List.length_take, hx]
    exact Nat.min_eq_left (Nat.le_mul_of_pos_left T (by omega))
  rw [hhead]
  refine List.map_congr_left (fun t htm => ?_)
  have ht : t < T := List.mem_range.mp htm
  rw [List.map_map]
  refine List.map_congr_left (fun i _ => ?_)
  simp only [Function.comp]
  exact getD_take_drop x (i * T) T t ht

/-- C8: the embedding front-end of `SimpleEmbed.forward`. For every row of
flattened length `d_feat × T` the reshape-and-permute pipeline produces, at
timestep `t`, exactly that timestep's `d_feat` features of the feature-major
flattened row (entries `f*T + t`); each timestep vector is then projected by
the linear layer and multiplied by `sqrt(embed_dim)`, giving output of shape
`(batch, T, embed_dim)`. The definition `specEmbedRow` restates the spec's
wording; the theorem proves the source pipeline equal to it, and the output
shape facts. -/
theorem simple_embed_front_end_contract (p : SimpleEmbedParams) (E T : Nat)
    (hF : 1 ≤ p.d_feat) (hW : p.projW.length = E) (hB : p.projB.length = E)
    (batch : List (List ℚ)) (hrows : ∀ x ∈ batch, x.length = p.d_feat * T) :
    (∀ x ∈ batch, SimpleEmbed.forwardRow p x = specEmbedRow p T x) ∧
    (SimpleEmbed.forward p batch).length = batch.length ∧
    (∀ x ∈ batch, (SimpleEmbed.forwardRow p x).length = T ∧
      ∀ v ∈ SimpleEmbed.forwardRow p x, v.length = E) := by
  have hrow : ∀ x ∈ batch, SimpleEmbed.forwardRow p x = specEmbedRow p T x := by
    intro x hx
    unfold SimpleEmbed.forwardRow specEmbedRow
    rw [permute_reshape_entries p.d_feat T x hF (hrows x hx), List.map_map]
    rfl
  refine ⟨hrow, List.length_map _ _, ?_⟩
  intro x hx
  rw [hrow x hx]
  constructor
  · rw [specEmbedRow, List.length_map, List.length_range]
  · intro v hv
    rw [specEmbedRow] at hv
    obtain ⟨t, _, rfl⟩ := List.mem_map.1 hv
    rw [List.length_map]
    unfold applyLinear
    rw [List.length_zipWith, hW, hB]
    exact Nat.min_self E

/-- Witness for `simple_embed_front_end_contract` at a concrete one-row batch
with `d_feat = 2`, `T = 3`, `embed_dim = 1`. -/
theorem simple_embed_front_end_contract_witness :
    SimpleEmbed.forwardRow ⟨2, [[1, 1]], [0], 1⟩ [1, 2, 3, 4, 5, 6] =
      specEmbedRow ⟨2, [[1, 1]], [0], 1⟩ 3 [1, 2, 3, 4, 5, 6] :=
  (simple_embed_front_end_contract ⟨2, [[1, 1]], [0], 1⟩ 1 3 (by decide)
    (by decide) (by decide) [[1, 2, 3, 4, 5, 6]] (by decide)).1
    [1, 2, 3, 4, 5, 6] (by simp)

theorem applyLinear_length (W : List (List ℚ)) (b v : List ℚ) :
    (applyLinear W b v).length = min W.length b.length :=
  List.length_zipWith _ _ _

theorem layerNorm_length (sqrtF : ℚ → ℚ) (eps : ℚ) (p : LNParams) (v : List ℚ) :
    (layerNorm sqrtF eps p v).length = v.length :=
  List.length_mapIdx

theorem mlpRow_length (actF : ℚ → ℚ) (dim hid : Nat) (p : MLPParams)
    (hwf : MLPWf dim hid p) (v : List ℚ) : (mlpRow actF p v).length = dim := by
  unfold mlpRow
  rw [applyLinear_length, hwf.2.2.1, hwf.2.2.2]
  exact Nat.min_self dim

theorem attention_shape (expF : ℚ → ℚ) (C : Nat) (p : AttentionParams)
    (hwf : AttentionWf C p) (x : List (List ℚ)) :
    (Attention.forwardRow expF p x).length = x.length ∧
    ∀ r ∈ Attention.forwardRow expF p x, r.length = C := by
  unfold Attention.forwardRow
  dsimp only
  constructor
  · rw [List.length_map, List.length_map, List.length_range]
  · intro r hr
    rw [List.mem_map] at hr
    obtain ⟨u, _, rfl⟩ := hr
    rw [applyLinear_length, hwf.2.2.1, hwf.2.2.2]
    exact Nat.min_self C

theorem addMat_shape (c : Nat) :
    ∀ (a b : List (List ℚ)), a.length = b.length →
      (∀ r ∈ a, r.length = c) → (∀ r ∈ b, r.length = c) →
      (addMat a b).length = a.length ∧ ∀ r ∈ addMat a b, r.length = c := by
  intro a
  induction a with
  | nil => intro b _ _ _; simp [addMat]
  | cons ha ta ih =>
    intro b hlen hra hrb
    match b with
    | [] => simp at hlen
    | hb :: tb =>
      unfold addMat
      rw [List.zipWith_cons_cons]
      have hih := ih tb (by simpa using hlen)
        (fun r hr => hra r (List.mem_cons_of_mem _ hr))
        (fun r hr => hrb r (List.mem_cons_of_mem _ hr))
      constructor
      · rw [List.length_cons, List.length_cons]
        exact congrArg (· + 1) hih.1
      · intro r hr
        rcases List.mem_cons.1 hr with h | h
        · subst h
          rw [List.length_zipWith, hra ha (List.mem_cons_self _ _),
            hrb hb (List.mem_cons_self _ _)]
          exact Nat.min_self c
        · exact hih.2 r h

theorem forall_mem_mapIdx {α β : Type} (p : β → Prop) :
    ∀ (f : Nat → α → β) (l : List α), (∀ i a, a ∈ l → p (f i a)) →
      ∀ b ∈ l.mapIdx f, p b := by
  intro f l
  induction l generalizing f with
  | nil => intro _ b hb; simp at hb
  | cons x xs ih =>
    intro h b hb
    rw [List.mapIdx_cons] at hb
    rcases List.mem_cons.1 hb with h0 | h0
    · subst h0
      exact h 0 x (List.mem_cons_self _ _)
    · exact ih (fun i => f (i + 1)) (fun i a ha => h (i + 1) a (List.mem_cons_of_mem _ ha)) b h0

theorem posEncode_shape (pe : Nat → Nat → ℚ) (c : Nat) (s : List (List ℚ))
    (hs : ∀ v ∈ s, v.length = c) :
    (posEncode pe s).length = s.length ∧ ∀ r ∈ posEncode pe s, r.length = c := by
  constructor
  · exact List.length_mapIdx
  · refine forall_mem_mapIdx (fun r : List ℚ => r.length = c) _ s (fun i a ha => ?_)
    dsimp only
    rw [List.length_mapIdx]
    exact hs a ha

theorem block_shape (expF sqrtF actF : ℚ → ℚ) (eps : ℚ) (C hid H : Nat)
    (b : BlockParams) (hwf : BlockWf C hid H b) (m : List (List ℚ))
    (hrows : ∀ r ∈ m, r.length = C) :
    (Block.forwardRow expF sqrtF actF eps b m).length = m.length ∧
    ∀ r ∈ Block.forwardRow expF sqrtF actF eps b m, r.length = C := by
  obtain ⟨_, hattn, hmlp⟩ := hwf
  unfold Block.forwardRow
  dsimp only
  have hn1 : ∀ r ∈ m.map (layerNorm sqrtF eps b.norm1), r.length = C := by
    intro r hr
    obtain ⟨u, hu, rfl⟩ := List.mem_map.1 hr
    rw [layerNorm_length]
    exact hrows u hu
  have hat := attention_shape expF C b.attn hattn (m.map (layerNorm sqrtF eps b.norm1))
  have hx1 := addMat_shape C m
    (Attention.forwardRow expF b.attn (m.map (layerNorm sqrtF eps b.norm1)))
    (by rw [hat.1, List.length_map]) hrows hat.2
  set x1 := addMat m (Attention.forwardRow expF b.attn (m.map (layerNorm sqrtF eps b.norm1)))
  have hmlps : ∀ r ∈ (x1.map (layerNorm sqrtF eps b.norm2)).map (mlpRow actF b.mlp),
      r.length = C := by
    intro r hr
    obtain ⟨u, _, rfl⟩ := List.mem_map.1 hr
    exact mlpRow_length actF C hid b.mlp hmlp u
  have hx2 := addMat_shape C x1 ((x1.map (layerNorm sqrtF eps b.norm2)).map (mlpRow actF b.mlp))
    (by rw [List.length_map, List.length_map]) hx1.2 hmlps
  exact ⟨by rw [hx2.1, hx1.1], hx2.2⟩

theorem blocks_foldl_shape (expF sqrtF actF : ℚ → ℚ) (eps : ℚ) (C hid H : Nat) :
    ∀ (bs : List BlockParams) (m : List (List ℚ)),
      (∀ b ∈ bs, BlockWf C hid H b) → (∀ r ∈ m, r.length = C) →
      (bs.foldl (fun acc bp => Block.forwardRow expF sqrtF actF eps bp acc) m).length
        = m.length ∧
      ∀ r ∈ bs.foldl (fun acc bp => Block.forwardRow expF sqrtF actF eps bp acc) m,
        r.length = C := by
  intro bs
  induction bs with
  | nil => intro m _ hm; exact ⟨rfl, hm⟩
  | cons b tb ih =>
    intro m hwf hm
    rw [List.foldl_cons]
    have hb := block_shape expF sqrtF actF eps C hid H b (hwf b (List.mem_cons_self _ _)) m hm
    have := ih (Block.forwardRow expF sqrtF actF eps b m)
      (fun b' hb' => hwf b' (List.mem_cons_of_mem _ hb')) hb.2
    exact ⟨by rw [this.1, hb.1], this.2⟩

theorem flatten_const_length {α : Type} (c : Nat) :
    ∀ (L : List (List α)), (∀ v ∈ L, v.length = c) → L.flatten.length = L.length * c := by
  intro L
  induction L with
  | nil => intro _; simp
  | cons v tv ih =>
    intro h
    rw [List.flatten_cons, List.length_append, h v (List.mem_cons_self _ _),
      ih (fun u hu => h u (List.mem_cons_of_mem _ hu)), List.length_cons]
    ring

theorem embedRow_shape (p : SimpleEmbedParams) (E T : Nat)
    (hF : 1 ≤ p.d_feat) (hW : p.projW.length = E) (hB : p.projB.length = E)
    (x : List ℚ) (hx : x.length = p.d_feat * T) :
    (SimpleEmbed.forwardRow p x).length = T ∧
    ∀ v ∈ SimpleEmbed.forwardRow p x, v.length = E := by
  unfold SimpleEmbed.forwardRow
  rw [permute_reshape_entries p.d_feat T x hF hx]
  constructor
  · rw [List.length_map, List.length_map, List.length_range]
  · intro v hv
    obtain ⟨u, _, rfl⟩ := List.mem_map.1 hv
    rw [List.length_map, applyLinear_length, hW, hB]
    exact Nat.min_self E

/-- C7: shape contract of the forward pass. For a `TransformerModel`
constructed with `depth = 5`, `embed_dim = 48`, `d_feat = 6` and any
`num_heads` dividing 48, a batch of shape `(32, 360)` (so `T = 60`, sequence
length 61 with the aggregation token) produces one scalar per batch row: the
output has length 32, the feature vector taken at the aggregation-token
position has width 48, and the head output for each row has exactly one
coordinate (so `squeeze(-1)` yields a scalar). The last conjunct is the
head-split consistency behind `num_heads ∣ embed_dim`: slicing a fused qkv
row of width `3·48` into `num_heads` head slices of width `48 / num_heads`
and re-concatenating them restores exactly width 48. -/
theorem transformer_forward_shape_contract
    (expF sqrtF actF : ℚ → ℚ) (eps : ℚ) (H : Nat) (θ : TransformerParams)
    (batch : List (List ℚ))
    (hH : 0 < H) (hdvd : H ∣ 48) (hwf : TransformerWf 6 48 5 H θ)
    (hbatch : batch.length = 32) (hrows : ∀ x ∈ batch, x.length = 360) :
    (TransformerModel.forward expF sqrtF actF eps θ batch).length = 32 ∧
    (∀ x ∈ batch,
      (TransformerModel.forward_features_row expF sqrtF actF eps θ x).length = 48 ∧
      (applyLinear θ.headW θ.headB
        (TransformerModel.forward_features_row expF sqrtF actF eps θ x)).length = 1) ∧
    (∀ r : List ℚ, r.length = 3 * 48 →
      (((List.range H).map
        (fun h => (r.drop (h * (48 / H))).take (48 / H))).flatten).length = 48) := by
  obtain ⟨hdf, hWe, hBe, hcls, hblen, hbwf, hhW, hhB⟩ := hwf
  refine ⟨?_, ?_, ?_⟩
  · unfold TransformerModel.forward
    rw [List.length_map, hbatch]
  · intro x hx
    have hxlen : x.length = θ.embed.d_feat * 60 := by
      rw [hrows x hx, hdf]
    have hemb := embedRow_shape θ.embed 48 60 (by rw [hdf]; omega) hWe hBe x hxlen
    have hct_rows : ∀ r ∈ θ.clsToken :: SimpleEmbed.forwardRow θ.embed x,
        r.length = 48 := by
      intro r hr
      rcases List.mem_cons.1 hr with h0 | h0
      · rw [h0]; exact hcls
      · exact hemb.2 r h0
    have hpos := posEncode_shape θ.pe 48 (θ.clsToken :: SimpleEmbed.forwardRow θ.embed x)
      hct_rows
    have hfold := blocks_foldl_shape expF sqrtF actF eps 48 (4 * 48) H θ.blocks
      (posEncode θ.pe (θ.clsToken :: SimpleEmbed.forwardRow θ.embed x)) hbwf hpos.2
    have hxlen61 :
        (θ.blocks.foldl (fun acc bp => Block.forwardRow expF sqrtF actF eps bp acc)
          (posEncode θ.pe (θ.clsToken :: SimpleEmbed.forwardRow θ.embed x))).length
        = 61 := by
      rw [hfold.1, hpos.1, List.length_cons, hemb.1]
    obtain ⟨y, ys, hys⟩ : ∃ y ys,
        θ.blocks.foldl (fun acc bp => Block.forwardRow expF sqrtF actF eps bp acc)
          (posEncode θ.pe (θ.clsToken :: SimpleEmbed.forwardRow θ.embed x)) = y :: ys := by
      cases hcase : θ.blocks.foldl (fun acc bp => Block.forwardRow expF sqrtF actF eps bp acc)
          (posEncode θ.pe (θ.clsToken :: SimpleEmbed.forwardRow θ.embed x)) with
      | nil => rw [hcase] at hxlen61; simp at hxlen61
      | cons y ys => exact ⟨y, ys, rfl⟩
    have hfeat :
        (TransformerModel.forward_features_row expF sqrtF actF eps θ x).length = 48 := by
      unfold TransformerModel.forward_features_row
      dsimp only
      rw [hys, List.map_cons, List.headD_cons, layerNorm_length]
      exact hfold.2 y (by rw [hys]; exact List.mem_cons_self _ _)
    refine ⟨hfeat, ?_⟩
    rw [applyLinear_length, hhW, hhB]
    exact Nat.min_self 1
  · intro r hr
    have hslice : ∀ v ∈ (List.range H).map
        (fun h => (r.drop (h * (48 / H))).take (48 / H)), v.length = 48 / H := by
      intro v hv
      obtain ⟨h, hhm, rfl⟩ := List.mem_map.1 hv
      have hhlt : h < H := List.mem_range.mp hhm
      rw [List.length_take, List.length_drop, hr]
      have hmul : H * (48 / H) = 48 := Nat.mul_div_cancel' hdvd
      have hbound : h * (48 / H) + 48 / H ≤ 48 := by
        calc h * (48 / H) + 48 / H = (h + 1) * (48 / H) := by ring
          _ ≤ H * (48 / H) := Nat.mul_le_mul_right _ hhlt
          _ = 48 := hmul
      omega
    rw [flatten_const_length (48 / H) _ hslice, List.length_map, List.length_range]
    exact Nat.mul_div_cancel' hdvd

/-- Witness for `transformer_forward_shape_contract`: a concrete model with
`num_heads = 4` and zero-initialised weights of the constructed shapes, on a
batch of 32 rows of 360 features. -/
theorem transformer_forward_shape_contract_witness :
    (TransformerModel.forward (fun q => q) (fun q => q) (fun q => q) 0
      ⟨⟨6, mkMatrix 48 6 (fun _ _ => 0), mkVec 48 (fun _ => 0), 1⟩,
       mkVec 48 (fun _ => 0), fun _ _ => 0,
       List.replicate 5
         ⟨⟨mkVec 48 (fun _ => 1), mkVec 48 (fun _ => 0)⟩,
          ⟨4, 1, mkMatrix 144 48 (fun _ _ => 0), mkVec 144 (fun _ => 0),
           mkMatrix 48 48 (fun _ _ => 0), mkVec 48 (fun _ => 0)⟩,
          ⟨mkVec 48 (fun _ => 1), mkVec 48 (fun _ => 0)⟩,
          ⟨mkMatrix 192 48 (fun _ _ => 0), mkVec 192 (fun _ => 0),
           mkMatrix 48 192 (fun _ _ => 0), mkVec 48 (fun _ => 0)⟩⟩,
       ⟨mkVec 48 (fun _ => 1), mkVec 48 (fun _ => 0)⟩,
       mkMatrix 1 48 (fun _ _ => 0), mkVec 1 (fun _ => 0)⟩
      (List.replicate 32 (List.replicate 360 0))).length = 32 := by
  have hmk : ∀ (r c : Nat) (g : Nat → Nat → ℚ), (mkMatrix r c g).length = r := by
    intro r c g
    rw [mkMatrix, List.length_map, List.length_range]
  have hvk : ∀ (n : Nat) (g : Nat → ℚ), (mkVec n g).length = n := by
    intro n g
    rw [mkVec, List.length_map, List.length_range]
  refine (transformer_forward_shape_contract _ _ _ _ 4 _ _ (by norm_num) (by norm_num)
    ?_ (List.length_replicate _ _) ?_).1
  · refine ⟨rfl, hmk _ _ _, hvk _ _, hvk _ _, List.length_replicate _ _, ?_,
      hmk _ _ _, hvk _ _⟩
    intro b hb
    rw [List.eq_of_mem_replicate hb]
    exact ⟨rfl, ⟨hmk _ _ _, hvk _ _, hmk _ _ _, hvk _ _⟩,
      ⟨hmk _ _ _, hvk _ _, hmk _ _ _, hvk _ _⟩⟩
  · intro x hx
    rw [List.eq_of_mem_replicate hx]
    exact List.length_replicate _ _

theorem dset_lookup_self (v : QExps.PyVal) (k : String) :
    ∀ d : QExps.PyDict, List.lookup k (QExps.dset d k v) = some v := by
  intro d
  induction d with
  | nil => simp [QExps.dset]
  | cons p rest ih =>
    obtain ⟨k', v'⟩ := p
    unfold QExps.dset
    by_cases hk : k' = k
    · rw [if_pos hk]
      simp
    · rw [if_neg hk]
      rw [List.lookup_cons]
      have hne : (k == k') = false := beq_eq_false_iff_ne.mpr (fun h => hk h.symm)
      rw [hne]
      exact ih

theorem update_gpu_task_model (h : QExps.Heap) (self fresh ta ma : Nat) (gpu : Int)
    (hfs : fresh ≠ self) (hft : fresh ≠ ta) (hfm : fresh ≠ ma)
    (hst : self ≠ ta) (hsm : self ≠ ma) (htm : ta ≠ ma)
    (hTask : List.lookup "task" (h self) = some (.ref ta))
    (hModel : List.lookup "model" (h ta) = some (.ref ma))
    (hGPU : QExps.hasKey (h ma) "GPU" = true) :
    ∃ h' : QExps.Heap, QExps.update_gpu h self fresh gpu = some (h', fresh) ∧
      h' self = h self ∧ h' ta = h ta ∧ h' fresh = h self ∧
      h' ma = QExps.dset (h ma) "GPU" (.int gpu) ∧
      List.lookup "GPU" (h' ma) = some (.int gpu) := by
  have hGPU' : (List.lookup "GPU" (h ma)).isSome = true := by
    simpa [QExps.hasKey] using hGPU
  have heq : QExps.update_gpu h self fresh gpu =
      some (QExps.hset (QExps.hset h fresh (h self)) ma
        (QExps.dset (h ma) "GPU" (.int gpu)), fresh) := by
    simp only [QExps.update_gpu, QExps.inTest, QExps.hasKey, QExps.writeModelGpu,
      QExps.hset, hTask]
    simp [Ne.symm hft, Ne.symm hfm, hModel, hGPU', QExps.hasKey]
  refine ⟨_, heq, ?_, ?_, ?_, ?_, ?_⟩
  · simp [QExps.hset, hsm, Ne.symm hfs]
  · simp [QExps.hset, htm, Ne.symm hft]
  · simp [QExps.hset, hfm]
  · simp [QExps.hset]
  · simp [QExps.hset, dset_lookup_self]

theorem update_gpu_model_top (h : QExps.Heap) (self fresh ma : Nat) (gpu : Int)
    (hfs : fresh ≠ self) (hfm : fresh ≠ ma) (hsm : self ≠ ma)
    (hTask : List.lookup "task" (h self) = none)
    (hModel : List.lookup "model" (h self) = some (.ref ma))
    (hGPU : QExps.hasKey (h ma) "GPU" = true) :
    ∃ h' : QExps.Heap, QExps.update_gpu h self fresh gpu = some (h', fresh) ∧
      h' self = h self ∧ h' fresh = h self ∧
      h' ma = QExps.dset (h ma) "GPU" (.int gpu) ∧
      List.lookup "GPU" (h' ma) = some (.int gpu) := by
  have hGPU' : (List.lookup "GPU" (h ma)).isSome = true := by
    simpa [QExps.hasKey] using hGPU
  have heq : QExps.update_gpu h self fresh gpu =
      some (QExps.hset (QExps.hset h fresh (h self)) ma
        (QExps.dset (h ma) "GPU" (.int gpu)), fresh) := by
    simp only [QExps.update_gpu, QExps.inTest, QExps.hasKey, QExps.writeModelGpu,
      QExps.hset, hTask]
    simp [Ne.symm hfm, hModel, hGPU', QExps.hasKey]
  refine ⟨_, heq, ?_, ?_, ?_, ?_⟩
  · simp [QExps.hset, hsm, Ne.symm hfs]
  · simp [QExps.hset, hfm]
  · simp [QExps.hset]
  · simp [QExps.hset, dset_lookup_self]

theorem update_gpu_kwargs_top (h : QExps.Heap) (self fresh ka : Nat) (gpu : Int)
    (hfs : fresh ≠ self) (hfk : fresh ≠ ka) (hsk : self ≠ ka)
    (hTask : List.lookup "task" (h self) = none)
    (hModel : List.lookup "model" (h self) = none)
    (hKwargs : List.lookup "kwargs" (h self) = some (.ref ka))
    (hGPU : QExps.hasKey (h ka) "GPU" = true) :
    ∃ h' : QExps.Heap, QExps.update_gpu h self fresh gpu = some (h', fresh) ∧
      h' self = h self ∧ h' fresh = h self ∧
      h' ka = QExps.dset (h ka) "GPU" (.int gpu) ∧
      List.lookup "GPU" (h' ka) = some (.int gpu) := by
  have hGPU' : (List.lookup "GPU" (h ka)).isSome = true := by
    simpa [QExps.hasKey] using hGPU
  have heq : QExps.update_gpu h self fresh gpu =
      some (QExps.hset (QExps.hset h fresh (h self)) ka
        (QExps.dset (h ka) "GPU" (.int gpu)), fresh) := by
    simp only [QExps.update_gpu, QExps.inTest, QExps.hasKey, QExps.writeModelGpu,
      QExps.hset, hTask, hModel]
    simp [Ne.symm hfk, hKwargs, hGPU', QExps.hasKey]
  refine ⟨_, heq, ?_, ?_, ?_, ?_⟩
  · simp [QExps.hset, hsk, Ne.symm hfs]
  · simp [QExps.hset, hfk]
  · simp [QExps.hset]
  · simp [QExps.hset, dset_lookup_self]

theorem update_gpu_top_level (h : QExps.Heap) (self fresh : Nat) (gpu : Int)
    (hfs : fresh ≠ self)
    (hTask : List.lookup "task" (h self) = none)
    (hModel : List.lookup "model" (h self) = none)
    (hKwargs : List.lookup "kwargs" (h self) = none)
    (hGPU : QExps.hasKey (h self) "GPU" = true) :
    ∃ h' : QExps.Heap, QExps.update_gpu h self fresh gpu = some (h', fresh) ∧
      h' self = h self ∧
      h' fresh = QExps.dset (h self) "GPU" (.int gpu) ∧
      List.lookup "GPU" (h' fresh) = some (.int gpu) := by
  have hGPU' : (List.lookup "GPU" (h self)).isSome = true := by
    simpa [QExps.hasKey] using hGPU
  have heq : QExps.update_gpu h self fresh gpu =
      some (QExps.hset (QExps.hset h fresh (h self)) fresh
        (QExps.dset (h self) "GPU" (.int gpu)), fresh) := by
    simp only [QExps.update_gpu, QExps.inTest, QExps.hasKey, QExps.writeModelGpu,
      QExps.hset, hTask, hModel, hKwargs]
    simp [hGPU', QExps.hasKey]
  refine ⟨_, heq, ?_, ?_, ?_⟩
  · simp [QExps.hset, Ne.symm hfs]
  · simp [QExps.hset]
  · simp [QExps.hset, dset_lookup_self]

/-- C10: `update_gpu` returns a distinct top-level mapping — the input dict at
`self` is untouched (`h' self = h self`) and the returned address is the fresh
copy — but when the GPU key lives in a nested mapping (under
`"task"/"model"`, under a top-level `"model"`, or under a top-level
`"kwargs"`), the write goes into the nested dictionary shared with the input
(`h' ma = dset (h ma) "GPU" gpu` at the very address the caller's structure
references), so the caller's original nested configuration is mutated. Only a
GPU key at the top level is updated in the copy alone, leaving every
input-reachable dictionary unchanged. -/
theorem update_gpu_aliasing :
    (∀ (h : QExps.Heap) (self fresh ta ma : Nat) (gpu : Int),
      fresh ≠ self → fresh ≠ ta → fresh ≠ ma → self ≠ ta → self ≠ ma → ta ≠ ma →
      List.lookup "task" (h self) = some (.ref ta) →
      List.lookup "model" (h ta) = some (.ref ma) →
      QExps.hasKey (h ma) "GPU" = true →
      ∃ h' : QExps.Heap, QExps.update_gpu h self fresh gpu = some (h', fresh) ∧
        h' self = h self ∧ h' ta = h ta ∧ h' fresh = h self ∧
        h' ma = QExps.dset (h ma) "GPU" (.int gpu) ∧
        List.lookup "GPU" (h' ma) = some (.int gpu)) ∧
    (∀ (h : QExps.Heap) (self fresh ma : Nat) (gpu : Int),
      fresh ≠ self → fresh ≠ ma → self ≠ ma →
      List.lookup "task" (h self) = none →
      List.lookup "model" (h self) = some (.ref ma) →
      QExps.hasKey (h ma) "GPU" = true →
      ∃ h' : QExps.Heap, QExps.update_gpu h self fresh gpu = some (h', fresh) ∧
        h' self = h self ∧ h' fresh = h self ∧
        h' ma = QExps.dset (h ma) "GPU" (.int gpu) ∧
        List.lookup "GPU" (h' ma) = some (.int gpu)) ∧
    (∀ (h : QExps.Heap) (self fresh ka : Nat) (gpu : Int),
      fresh ≠ self → fresh ≠ ka → self ≠ ka →
      List.lookup "task" (h self) = none →
      List.lookup "model" (h self) = none →
      List.lookup "kwargs" (h self) = some (.ref ka) →
      QExps.hasKey (h ka) "GPU" = true →
      ∃ h' : QExps.Heap, QExps.update_gpu h self fresh gpu = some (h', fresh) ∧
        h' self = h self ∧ h' fresh = h self ∧
        h' ka = QExps.dset (h ka) "GPU" (.int gpu) ∧
        List.lookup "GPU" (h' ka) = some (.int gpu)) ∧
    (∀ (h : QExps.Heap) (self fresh : Nat) (gpu : Int),
      fresh ≠ self →
      List.lookup "task" (h self) = none →
      List.lookup "model" (h self) = none →
      List.lookup "kwargs" (h self) = none →
      QExps.hasKey (h self) "GPU" = true →
      ∃ h' : QExps.Heap, QExps.update_gpu h self fresh gpu = some (h', fresh) ∧
        h' self = h self ∧
        h' fresh = QExps.dset (h self) "GPU" (.int gpu) ∧
        List.lookup "GPU" (h' fresh) = some (.int gpu)) :=
  ⟨update_gpu_task_model, update_gpu_model_top, update_gpu_kwargs_top,
   update_gpu_top_level⟩

/-- Witness for `update_gpu_aliasing` on a concrete three-dict heap
`config = {"task": {"model": {"GPU": 3}}}`: the call returns the fresh copy, the
input's top-level dict is untouched, and the nested model dict — still
referenced by the input — now maps `"GPU"` to the new value. -/
theorem update_gpu_aliasing_witness :
    ∃ h' : QExps.Heap,
      QExps.update_gpu
        (fun a => if a = 0 then [("task", QExps.PyVal.ref 1)]
                  else if a = 1 then [("model", QExps.PyVal.ref 2)]
                  else if a = 2 then [("GPU", QExps.PyVal.int 3)] else [])
        0 9 7 = some (h', 9) ∧
      h' 0 = [("task", QExps.PyVal.ref 1)] ∧
      List.lookup "GPU" (h' 2) = some (QExps.PyVal.int 7) := by
  obtain ⟨h', heq, hself, _, _, _, hgpu⟩ :=
    update_gpu_aliasing.1
      (fun a => if a = 0 then [("task", QExps.PyVal.ref 1)]
                else if a = 1 then [("model", QExps.PyVal.ref 2)]
                else if a = 2 then [("GPU", QExps.PyVal.int 3)] else [])
      0 9 1 2 7 (by decide) (by decide) (by decide) (by decide) (by decide)
      (by decide) (by decide) (by decide) (by decide)
  exact ⟨h', heq, hself, hgpu⟩
